import Mathlib

/-!
Verification development for the sinc-aperture photometry core of
`meas_algorithms` (files `src/photometry/SincPhotometry.cc` and
`src/flux/EllipticalApertureFlux.cc`).

The C++ is shallowly embedded: pure arithmetic over `double` is modelled by
`ℚ` where only field operations and comparisons occur, and by `ℝ` where
transcendental functions (`sqrt`, `cos`, `sin`) appear; the numeric
integrators (`afwMath::integrate`, `afwMath::integrate2d`) and the sinc
aperture-flux primitive of the wider framework are abstract function
parameters; C++ exceptions become `Option`/sum outcomes.
-/

namespace SincPhot

/-! ## FootprintWeightFlux (SincPhotometry.cc lines 264-316) and the final
flux/fluxErr computation of `SincPhotometry::doMeasure` (lines 650-656).

A clipped kernel region is modelled as the list of visited pixels, each
carrying the kernel weight `w` at that pixel, the image value `i` and the
variance value `v` (`operator()` reads `iloc.image(0,0)`, `iloc.variance(0,0)`
and the weight image at the corresponding offset). -/

structure Px where
  w : ℚ
  i : ℚ
  v : ℚ

/-- One `operator()` call of `FootprintWeightFlux`:
`_sum += wval*ival; _sumVar += wval*wval*vval;`. -/
def weightFluxStep (acc : ℚ × ℚ) (p : Px) : ℚ × ℚ :=
  (acc.1 + p.w * p.i, acc.2 + p.w * p.w * p.v)

/-- Model of `FootprintFunctor::apply` visiting every pixel of the clipped footprint,
starting from the reset state `_sum = 0, _sumVar = 0`. -/
def footprintSums (ps : List Px) : ℚ × ℚ :=
  ps.foldl weightFluxStep (0, 0)

/-- The value `flux = wfluxFunctor.getSum()` (doMeasure line 655). -/
def measuredFlux (ps : List Px) : ℚ := (footprintSums ps).1

/-- The value `wfluxFunctor.getSumVar()` (doMeasure line 656, before the sqrt). -/
def measuredFluxVariance (ps : List Px) : ℚ := (footprintSums ps).2

/-- The value `fluxErr = ::sqrt(wfluxFunctor.getSumVar())` (doMeasure line 656). -/
noncomputable def measuredFluxErr (ps : List Px) : ℝ :=
  Real.sqrt (measuredFluxVariance ps)

/-! ## The bounds check of `SincPhotometry::doMeasure` (lines 627-644).

Bounding boxes are integer rectangles `(x0, y0, width, height)`; the model
follows the `#else` branch of the bounds check literally.  Constructing the
sub-image `Image(*cimage, bbox, false)` with a box that is not a genuine
sub-box of the parent throws in the image library; the model reports that as
the `thrown` outcome. -/

structure BBoxI where
  x0 : ℤ
  y0 : ℤ
  w : ℤ
  h : ℤ
deriving DecidableEq, Repr

/-- Outcome of the measurement path of `doMeasure`: `nanResult` is the early
return `SincPhotometry(NaN, NaN)` (taken only when `peak == NULL`), `ok b`
means the flux sum proceeds over the clipped box `b`, and `thrown` means an
exception escapes (sub-image construction from a non-positive-size box). -/
inductive ClipOutcome where
  | nanResult : ClipOutcome
  | ok : BBoxI → ClipOutcome
  | thrown : ClipOutcome
deriving DecidableEq, Repr

/-- The clip arithmetic of doMeasure lines 627-644: `x1,y1` are the
elementwise maxima of the two lower corners, `x2,y2` the elementwise minima
of the two upper corners; if the dimensions changed, the kernel image is
re-extracted into the box `(x1, y1, x2-x1+1, y2-y1+1)`. -/
def clipBoxes (c m : BBoxI) : BBoxI :=
  let x1 := if c.x0 < m.x0 then m.x0 else c.x0
  let y1 := if c.y0 < m.y0 then m.y0 else c.y0
  let x2 := if c.x0 + c.w > m.x0 + m.w then m.x0 + m.w - 1 else c.x0 + c.w - 1
  let y2 := if c.y0 + c.h > m.y0 + m.h then m.y0 + m.h - 1 else c.y0 + c.h - 1
  ⟨x1, y1, x2 - x1 + 1, y2 - y1 + 1⟩

/-- The control flow of `doMeasure` around the bounds check: a null peak
returns the NaN result; otherwise, when the clipped box differs in size from
the kernel box, the kernel is copied into the clipped box — which throws
unless that box has positive dimensions. -/
def doMeasureClip (peakPresent : Bool) (c m : BBoxI) : ClipOutcome :=
  if !peakPresent then ClipOutcome.nanResult
  else
    let b := clipBoxes c m
    if b.w = c.w ∧ b.h = c.h then ClipOutcome.ok c
    else if 0 < b.w ∧ 0 < b.h then ClipOutcome.ok b
    else ClipOutcome.thrown

/-- The two boxes intersect nowhere. -/
def emptyIntersection (c m : BBoxI) : Prop :=
  c.x0 + c.w ≤ m.x0 ∨ m.x0 + m.w ≤ c.x0 ∨ c.y0 + c.h ≤ m.y0 ∨ m.y0 + m.h ≤ c.y0

instance (c m : BBoxI) : Decidable (emptyIntersection c m) := by
  unfold emptyIntersection; infer_instance

/-! ## CircularAperture (SincPhotometry.cc lines 117-212).

The constructor body is pure field arithmetic and comparisons, so it is
embedded polymorphically over a linear ordered field: instantiated at `ℚ`
it is executable, at `ℝ` it feeds the evaluation function (which needs
`sqrt`/`cos`).  The two `LSST_EXCEPT` throws become `none`.  The comparison
`(_radius2 - _radius2) < 0.5*_taperwidth1` on line 168 is kept exactly as
written in the source (the left side is identically zero). -/

structure Aperture (α : Type) where
  radius1 : α
  radius2 : α
  taperwidth1 : α
  taperwidth2 : α
  k1 : α
  k2 : α
  taperLo1 : α
  taperHi1 : α
  taperLo2 : α
  taperHi2 : α
deriving DecidableEq, Repr

/-- Constructor `CircularAperture::CircularAperture(radius1, radius2, taperwidth)`
(lines 121-183), with the member initialisers followed by the degenerate
geometry adjustments in source order.  Division is the field's total
division (`x/0 = 0`) while the C++ double arithmetic produces `±inf`; the
denominators of the stored wavenumbers can be zero only on the degenerate
line `radius1 = radius2` (where the collapse branch zeroes both taper
widths) — on `radius1 < radius2` with a positive taper width every such
division has a positive denominator (`mkAperture_wavenumbers` below), so
evaluation theorems restrict themselves to that scope. -/
def mkAperture {α : Type} [LinearOrderedField α] (radius1 radius2 taperwidth : α) :
    Option (Aperture α) :=
  if radius1 > radius2 then none
  else if radius1 < 0 ∨ radius2 < 0 then none
  else
    let tw1 := if radius1 = 0 then 0 else taperwidth
    let k1 := if radius1 = 0 then 0 else 1 / (2 * taperwidth)
    let tw1a := if radius1 < tw1 / 2 then 2 * radius1 else tw1
    let k1a := if radius1 < tw1 / 2 then 1 / (2 * (2 * radius1)) else k1
    if radius2 - radius1 < (tw1a + taperwidth) / 2 then
      if radius2 - radius2 < tw1a / 2 then
        let t := (radius2 - radius1) / 2
        some ⟨radius1, radius2, t, t, 1 / (2 * t), 1 / (2 * t),
              radius1 - t / 2, radius1 + t / 2, radius2 - t / 2, radius2 + t / 2⟩
      else
        let tw2 := radius2 - radius1 - tw1a
        some ⟨radius1, radius2, tw1a, tw2, k1a, 1 / (2 * tw2),
              radius1 - tw1a / 2, radius1 + tw1a / 2,
              radius2 - tw2 / 2, radius2 + tw2 / 2⟩
    else
      some ⟨radius1, radius2, tw1a, taperwidth, k1a, 1 / (2 * taperwidth),
            radius1 - taperwidth / 2, radius1 + taperwidth / 2,
            radius2 - taperwidth / 2, radius2 + taperwidth / 2⟩

/-- The radial part of `CircularAperture::operator()` (lines 188-201),
applied to the already-computed radius `xyrad`. -/
noncomputable def apEvalR (ap : Aperture ℝ) (xyrad : ℝ) : ℝ :=
  if xyrad < ap.taperLo1 then 0
  else if ap.taperLo1 ≤ xyrad ∧ xyrad ≤ ap.taperHi1 then
    0.5 * (1 + Real.cos ((2 * Real.pi * ap.k1) * (xyrad - ap.taperHi1)))
  else if ap.taperHi1 < xyrad ∧ xyrad ≤ ap.taperLo2 then 1
  else if ap.taperLo2 < xyrad ∧ xyrad ≤ ap.taperHi2 then
    0.5 * (1 + Real.cos ((2 * Real.pi * ap.k2) * (xyrad - ap.taperLo2)))
  else 0

/-- Evaluation `CircularAperture::operator()(x, y)`: the transmission at `(x, y)`. -/
noncomputable def apEval (ap : Aperture ℝ) (x y : ℝ) : ℝ :=
  apEvalR ap (Real.sqrt (x * x + y * y))

/-- The concrete aperture built by `mkAperture (1/4) 10 1`: the inner taper
width is shrunk to `2·radius1 = 1/2` and `_k1` updated, but `_taperLo1` and
`_taperHi1` keep their initialiser values `radius1 ∓ taperwidth/2`. -/
noncomputable def apShrunk : Aperture ℝ :=
  ⟨1 / 4, 10, 1 / 2, 1, 1, 1 / 2, -(1 / 4), 3 / 4, 19 / 2, 21 / 2⟩

/-- The aperture built by `mkAperture 2 5 1` (no degenerate adjustment). -/
noncomputable def apPlain : Aperture ℝ :=
  ⟨2, 5, 1, 1, 1 / 2, 1 / 2, 3 / 2, 5 / 2, 9 / 2, 11 / 2⟩

/-! ## Kernel synthesis: `SincCoeffs::_calculateImage` (lines 370-473).

The numeric integrators `afwMath::integrate` (1D) and `afwMath::integrate2d`
(2D) are abstract parameters: a 1D integrator consumes `(f, a, b, tol)`, a 2D
integrator `(f, x1, x2, y1, y2, tol)`. -/

/-- Type of `afwMath::integrate`. -/
def Integr1 : Type := (ℝ → ℝ) → ℝ → ℝ → ℝ → ℝ

/-- Type of `afwMath::integrate2d`. -/
def Integr2 : Type := (ℝ → ℝ → ℝ) → ℝ → ℝ → ℝ → ℝ → ℝ → ℝ

/-- Function `sinc(x)` (lines 108-111). -/
noncomputable def sincF (x : ℝ) : ℝ := if x ≠ 0 then Real.sin x / x else 1

/-- Integrand `SincAperture::operator()` (lines 245-252): the integrand
`1 + ap(x,y)·fx·fy` with the cosine-tapered sinc factors (`_xtaper`,
`_ytaper` both 10). -/
noncomputable def sincApertureF (ap : Aperture ℝ) (ix iy : ℤ) (x y : ℝ) : ℝ :=
  let dx := Real.pi * (x - (ix : ℝ))
  let dy := Real.pi * (y - (iy : ℝ))
  let fx := 0.5 * (1 + Real.cos (dx / 10)) * sincF dx
  let fy := 0.5 * (1 + Real.cos (dy / 10)) * sincF dy
  1 + apEval ap x y * fx * fy

/-- Functor `CircApPolar` (lines 215-224): `r · ap(r, 0)` for the solid disk aperture
`CircularAperture(0, radius, taperwidth)`; `none` when that constructor
throws. -/
noncomputable def circApPolar (radius taperwidth : ℝ) : Option (ℝ → ℝ) :=
  (mkAperture 0 radius taperwidth).map (fun ap r => r * apEval ap r 0)

/-- One pass of the effective-radius Newton loop body (lines 412-422). -/
noncomputable def newtonStep (I1 : Integr1) (taperwidth apEff dr : ℝ)
    (radIn : ℝ) : Option (ℝ × ℝ) :=
  match circApPolar radIn taperwidth, circApPolar (radIn + dr) taperwidth with
  | some f1, some f2 =>
    let a1 := Real.pi * 2 * I1 f1 0 (radIn + taperwidth) (1e-12)
    let a2 := Real.pi * 2 * I1 f2 0 (radIn + dr + taperwidth) (1e-12)
    let dadr := (a2 - a1) / dr
    let radNew := radIn - (a1 - apEff) / dadr
    let err := (a1 - apEff) / apEff
    some (radNew, err)
  | _, _ => none

/-- The `while (err > tolerance && i < maxIt)` loop, by remaining iteration
count; `none` models a `CircApPolar` constructor throw inside the loop. -/
noncomputable def newtonLoop (I1 : Integr1) (taperwidth apEff : ℝ) :
    ℕ → ℝ → ℝ → Option ℝ
  | 0, _, radIn => some radIn
  | n + 1, err, radIn =>
      if err > 1e-12 then
        match newtonStep I1 taperwidth apEff (1e-6) radIn with
        | some (radNew, errNew) => newtonLoop I1 taperwidth apEff n errNew radNew
        | none => none
      else some radIn

/-- The whole effective-radius computation of lines 405-422: tolerance
`1e-12`, step `1e-6`, initial error `2·tolerance`, start `radius`, at most 20
iterations.  Its result `radIn` is dead in the source. -/
noncomputable def runNewton (I1 : Integr1) (radius taperwidth : ℝ) : Option ℝ :=
  newtonLoop I1 taperwidth (Real.pi * radius * radius) 20 (2 * 1e-12) radius

/-- Width `xwidth` (= `ywidth`): `static_cast<int>(2.0*(radius + 10.0)) + 1`
(lines 385-392); for the nonnegative radii in use the cast truncation is the
floor. -/
noncomputable def coeffWidth (radius : ℝ) : ℤ := ⌊2 * (radius + 10)⌋ + 1

/-- Origin `x0` (= `y0`): `-xwidth/2` in C++ `int` arithmetic (truncating
division). -/
noncomputable def coeffX0 (radius : ℝ) : ℤ := Int.tdiv (-(coeffWidth radius)) 2

/-- One coefficient (lines 441-453): the 2D integral of the sinc aperture
over the square of half-width `radius + taperwidth` at absolute tolerance
`1e-8`, minus the constant baseline volume, forced to zero where the offset
distance reaches `xwidth/2`. -/
noncomputable def coeffEntry (I2 : Integr2) (ap : Aperture ℝ)
    (radius taperwidth : ℝ) (ix iy : ℤ) : ℝ :=
  let limit := radius + taperwidth
  let integral := I2 (sincApertureF ap ix iy) (-limit) limit (-limit) limit (1e-8)
  if Real.sqrt ((ix : ℝ) * (ix : ℝ) + (iy : ℝ) * (iy : ℝ))
      < ((Int.tdiv (coeffWidth radius) 2 : ℤ) : ℝ) then
    integral - (limit - -limit) * (limit - -limit)
  else 0

/-- The coefficient buffer, row `iY = y0 + j`, column `iX = x0 + i`
(lines 436-455). -/
noncomputable def coeffRows (I2 : Integr2) (ap : Aperture ℝ)
    (radius taperwidth : ℝ) : List (List ℝ) :=
  (List.range (coeffWidth radius).toNat).map fun (j : ℕ) =>
    (List.range (coeffWidth radius).toNat).map fun (i : ℕ) =>
      coeffEntry I2 ap radius taperwidth
        (coeffX0 radius + (i : ℤ)) (coeffX0 radius + (j : ℤ))

/-- A synthesized coefficient image: origin offset `(x0, y0)` and the rows. -/
noncomputable def synthImage (I2 : Integr2) (ap : Aperture ℝ)
    (radius taperwidth : ℝ) : ℤ × ℤ × List (List ℝ) :=
  (coeffX0 radius, coeffX0 radius, coeffRows I2 ap radius taperwidth)

/-- The cache-miss path of `SincCoeffs::_calculateImage` (lines 383-473):
run the effective-radius Newton iteration (whose value is discarded), then
synthesize from `CircularAperture(innerRadius, radius, taperwidth)`; `none`
models an exception from either aperture construction. -/
noncomputable def calculateImage (I1 : Integr1) (I2 : Integr2)
    (innerRadius radius taperwidth : ℝ) : Option (ℤ × ℤ × List (List ℝ)) :=
  match runNewton I1 radius taperwidth with
  | none => none
  | some _ =>
      (mkAperture innerRadius radius taperwidth).map fun ap =>
        synthImage I2 ap radius taperwidth

/-- Modelled from the spec, §4.2 OPEN QUESTION: the same synthesis with "the
effective-radius Newton iteration removed", the aperture being constructed
directly from the nominal `innerRadius` and `radius`. -/
noncomputable def calculateImageNoSolver (I2 : Integr2)
    (innerRadius radius taperwidth : ℝ) : Option (ℤ × ℤ × List (List ℝ)) :=
  (mkAperture innerRadius radius taperwidth).map fun ap =>
    synthImage I2 ap radius taperwidth

/-- The spec's claimed window side `2·(radius + taperWidth + buffer) + 1`
(§4.3, "buffer ≈ 10 pixels"), written from the spec's words. -/
def claimWindowSide (radius taperwidth buffer : ℝ) : ℝ :=
  2 * (radius + taperwidth + buffer) + 1

/-! ## KernelCache: `SincCoeffs` (lines 321-381, 470).

Keys are `float` radii ordered by `fuzzyCompare<float>`; the nested
`std::map<float, std::map<float, ...>>` keyed by `(innerRadius, radius)` is
modelled as an association list looked up with the equivalence the comparator
induces (neither key less than the other).  Stored images are an abstract
type `κ` and synthesis an abstract function of
`(innerRadius, radius, taperwidth)`. -/

/-- Machine epsilon of `float`: `std::numeric_limits<float>::epsilon()`,
`2⁻²³ = 1/8388608`. -/
def machineEpsF : ℚ := mkRat 1 8388608

/-- Comparator `fuzzyCompare<T>::operator()` (lines 321-332). -/
def fuzzyLT (eps x y : ℚ) : Bool :=
  if |x - y| < eps then false else decide (x < y)

/-- Key equivalence induced by `fuzzyCompare` in an ordered container:
neither argument compares less than the other. -/
def fuzzyEqv (eps x y : ℚ) : Bool := !fuzzyLT eps x y && !fuzzyLT eps y x

/-- Equivalence of `(innerRadius, radius)` keys of the nested map. -/
def keyEqv (eps : ℚ) (k l : ℚ × ℚ) : Bool :=
  fuzzyEqv eps k.1 l.1 && fuzzyEqv eps k.2 l.2

/-- The static `_coeffImages` store, as an association list. -/
abbrev Cache (κ : Type) : Type := List ((ℚ × ℚ) × κ)

/-- The lookup of lines 374-381. -/
def cacheFind {κ : Type} (eps : ℚ) (c : Cache κ) (k : ℚ × ℚ) : Option κ :=
  (List.find? (fun e => keyEqv eps e.1 k) c).map Prod.snd

/-- Functions `getImage`/`_calculateImage` seen at the cache level
(lines 344-349, 374-381 and 470): a hit returns the stored image and leaves
the cache unchanged; a miss synthesizes with the given taper width and
publishes the result under `(innerRadius, radius)` before returning it. -/
def getImageCached {κ : Type} (synth : ℚ → ℚ → ℚ → κ) (eps : ℚ) (c : Cache κ)
    (ir r tw : ℚ) : κ × Cache κ :=
  match cacheFind eps c (ir, r) with
  | some img => (img, c)
  | none => (synth ir r tw, ((ir, r), synth ir r tw) :: c)

/-! ## EllipticalApertureFlux::_apply (EllipticalApertureFlux.cc, lines
67-102).

The fields written on the source record and the photometry calls made are
tracked in a state; `calculateSincApertureFlux` (declared in `Photometry.h`,
implemented outside this repository) is an abstract function receiving the
scaled semi-major axis and the inner-to-outer ratio of each step. -/

structure MeasState where
  flag : Bool
  nProfile : ℤ
  fluxWrites : List (ℕ × ℝ)
  errWrites : List (ℕ × ℝ)
  calls : List (ℝ × ℝ)

/-- A fresh source record state. -/
def emptyMeasState : MeasState := ⟨false, 0, [], [], []⟩

/-- Factor `fac = 1.0/::sqrt(shape.getA()*shape.getB())` (line 86). -/
noncomputable def ellFac (a b : ℝ) : ℝ := 1 / Real.sqrt (a * b)

/-- The measurement loop (lines 87-99): at radius index `i` the shape is
scaled to semi-major axis `a·(fac·radiusᵢ)`, photometry is called with that
axis and the ratio `oradius/outer.getA()`, the flux pair is written at slot
`i`, and `oradius` becomes the current axis. -/
noncomputable def ellApplyAux (measure : ℝ → ℝ → ℝ × ℝ) (a fac : ℝ) :
    ℝ → ℕ → List ℝ → MeasState → MeasState
  | _, _, [], s => s
  | oradius, i, r :: rest, s =>
      let outerA := a * (fac * r)
      let fl := measure outerA (oradius / outerA)
      ellApplyAux measure a fac outerA (i + 1) rest
        { s with calls := s.calls ++ [(outerA, oradius / outerA)],
                 fluxWrites := s.fluxWrites ++ [(i, fl.1)],
                 errWrites := s.errWrites ++ [(i, fl.2)] }

/-- Whole `_apply` (lines 67-102): set the failure flag and a zero profile
count up front; give up immediately if the shape is flagged; otherwise run
the loop over all radii with `oradius` starting at `0`, then record the
count and clear the failure flag. -/
noncomputable def ellApplyModel (measure : ℝ → ℝ → ℝ × ℝ) (shapeFlag : Bool)
    (a fac : ℝ) (radii : List ℝ) (s0 : MeasState) : MeasState :=
  let s1 := { s0 with flag := true, nProfile := 0 }
  if shapeFlag then s1
  else
    let s2 := ellApplyAux measure a fac 0 0 radii s1
    { s2 with nProfile := (radii.length : ℤ), flag := false }

/-- The per-step photometry arguments `(outer.getA(), oradius/outer.getA())`
as a pure recurrence on the radii. -/
noncomputable def annulusCalls (a fac : ℝ) : ℝ → List ℝ → List (ℝ × ℝ)
  | _, [] => []
  | oradius, r :: rest =>
      (a * (fac * r), oradius / (a * (fac * r)))
        :: annulusCalls a fac (a * (fac * r)) rest

end SincPhot

/-! # Helper lemmas -/

namespace SincPhot

theorem footprintSums_shift (ps : List Px) (a b : ℚ) :
    ps.foldl weightFluxStep (a, b) =
      (a + (ps.map (fun p => p.w * p.i)).sum,
       b + (ps.map (fun p => p.w * p.w * p.v)).sum) := by
  induction ps generalizing a b with
  | nil => simp
  | cons p ps ih =>
      simp only [List.foldl_cons, List.map_cons, List.sum_cons, weightFluxStep, ih,
        Prod.mk.injEq]
      constructor <;> ring

/-- Whenever both boxes are nonempty and their intersection is empty, the
measurement path reaches the sub-image construction with a non-positive-size
box and the exception escapes: there is no failure-result return. -/
theorem doMeasureClip_empty_throws (c m : BBoxI)
    (hc : 0 < c.w ∧ 0 < c.h) (hm : 0 < m.w ∧ 0 < m.h)
    (he : emptyIntersection c m) :
    doMeasureClip true c m = ClipOutcome.thrown := by
  simp only [doMeasureClip, clipBoxes, Bool.not_true, Bool.false_eq_true,
    if_false]
  unfold emptyIntersection at he
  split_ifs <;> first | rfl | omega

/-- On the scope `radius1 < radius2`, `0 < taperwidth`, the constructor
performs no division by zero for the stored wavenumbers: the outer taper
width is positive with `k2 = 1/(2·taperwidth2)`, and the inner taper width
is either positive with `k1 = 1/(2·taperwidth1)` or is the explicit
`radius1 == 0` zeroing of lines 152-155 (`_taperwidth1 = 0.0; _k1 = 0.0;`,
no division).  Hence on this scope the total field division of the model
coincides with the C++ double arithmetic; at `radius1 = radius2 > 0` the
C++ instead computes `_k1 = _k2 = 1/(2·0) = inf`. -/
theorem mkAperture_wavenumbers (r1 r2 tw : ℝ) (ap : Aperture ℝ)
    (htw : 0 < tw) (hlt : r1 < r2)
    (hmk : mkAperture r1 r2 tw = some ap) :
    (0 < ap.taperwidth2 ∧ ap.k2 = 1 / (2 * ap.taperwidth2)) ∧
    (0 < ap.taperwidth1 ∧ ap.k1 = 1 / (2 * ap.taperwidth1) ∨
     r1 = 0 ∧ ap.taperwidth1 = 0 ∧ ap.k1 = 0) := by
  simp only [mkAperture] at hmk
  rw [if_neg (lt_asymm hlt)] at hmk
  by_cases hneg : r1 < 0 ∨ r2 < 0
  · rw [if_pos hneg] at hmk
    exact Option.noConfusion hmk
  rw [if_neg hneg] at hmk
  push_neg at hneg
  obtain ⟨hr10, hr20⟩ := hneg
  split_ifs at hmk with h3 h4 h5 h6 h7 h8 h9 h10 h11 h12
  all_goals injection hmk with h
  all_goals subst h
  all_goals refine ⟨⟨?_, rfl⟩, ?_⟩
  all_goals first
    | linarith
    | exact Or.inr ⟨by linarith, rfl, rfl⟩
    | exact Or.inl ⟨by linarith, rfl⟩
    | exact Or.inl ⟨by
        rcases hr10.eq_or_lt with h0 | h0
        · exact absurd h0.symm h3
        · linarith, rfl⟩

/-- Characterisation of the comparator-induced key equivalence: two keys
collide exactly when they differ by less than `eps`. -/
theorem fuzzyEqv_true_iff (eps : ℚ) (heps : 0 < eps) (x y : ℚ) :
    fuzzyEqv eps x y = true ↔ |x - y| < eps := by
  unfold fuzzyEqv fuzzyLT
  by_cases h : |x - y| < eps
  · have h' : |y - x| < eps := by rwa [abs_sub_comm]
    simp [h, h']
  · have h' : ¬ |y - x| < eps := by rwa [abs_sub_comm]
    have hne : x ≠ y := by
      intro he
      apply h
      rw [he, sub_self, abs_zero]
      exact heps
    rcases lt_or_gt_of_ne hne with hlt | hgt
    · simp [h, h', hlt]
    · simp [h, h', hgt]

theorem keyEqv_self (eps : ℚ) (heps : 0 < eps) (k : ℚ × ℚ) :
    keyEqv eps k k = true := by
  unfold keyEqv
  rw [(fuzzyEqv_true_iff eps heps k.1 k.1).mpr (by simpa using heps),
      (fuzzyEqv_true_iff eps heps k.2 k.2).mpr (by simpa using heps)]
  rfl

theorem cacheFind_cons_self {κ : Type} (eps : ℚ) (heps : 0 < eps)
    (k : ℚ × ℚ) (v : κ) (c : Cache κ) :
    cacheFind eps ((k, v) :: c) k = some v := by
  unfold cacheFind
  have hp : (fun (e : (ℚ × ℚ) × κ) => keyEqv eps e.1 k) (k, v) = true :=
    keyEqv_self eps heps k
  have hfind : List.find? (fun (e : (ℚ × ℚ) × κ) => keyEqv eps e.1 k)
      ((k, v) :: c) = some (k, v) := List.find?_cons_of_pos _ hp
  rw [hfind]
  rfl

theorem ellApplyAux_calls (measure : ℝ → ℝ → ℝ × ℝ) (a fac : ℝ) :
    ∀ (rs : List ℝ) (o : ℝ) (i : ℕ) (s : MeasState),
      (ellApplyAux measure a fac o i rs s).calls
        = s.calls ++ annulusCalls a fac o rs := by
  intro rs
  induction rs with
  | nil => intro o i s; simp [ellApplyAux, annulusCalls]
  | cons r rest ih =>
      intro o i s
      simp only [ellApplyAux, annulusCalls, ih]
      simp

theorem annulusCalls_length (a fac : ℝ) :
    ∀ (o : ℝ) (rs : List ℝ), (annulusCalls a fac o rs).length = rs.length := by
  intro o rs
  induction rs generalizing o with
  | nil => simp [annulusCalls]
  | cons r rest ih => simp [annulusCalls, ih]

theorem annulusCalls_snd_succ (a fac : ℝ) :
    ∀ (rs : List ℝ) (o : ℝ) (i : ℕ), i + 1 < rs.length →
      ((annulusCalls a fac o rs).map Prod.snd).getD (i + 1) 0
        = (a * (fac * rs.getD i 0)) / (a * (fac * rs.getD (i + 1) 0)) := by
  intro rs
  induction rs with
  | nil => intro o i h; simp at h
  | cons r rest ih =>
      intro o i h
      cases rest with
      | nil => simp at h
      | cons r2 rest2 =>
          cases i with
          | zero => simp [annulusCalls]
          | succ n =>
              have h2 : n + 1 < (r2 :: rest2).length := by
                simp only [List.length_cons] at h ⊢
                omega
              have hih := ih (a * (fac * r)) n h2
              simpa [annulusCalls, List.getD_cons_succ] using hih

end SincPhot

/-! # Claim theorems -/

/-- C1: over a clipped kernel region (a list of visited pixels), the reported
flux is the sum of kernel weight times data value, the propagated flux
variance is the sum of squared kernel weight times variance value, and the
reported flux error is the square root of that variance sum. -/
theorem C1_flux_is_weighted_sum (ps : List SincPhot.Px) :
    SincPhot.measuredFlux ps = (ps.map (fun p => p.w * p.i)).sum ∧
    SincPhot.measuredFluxVariance ps
      = (ps.map (fun p => p.w * p.w * p.v)).sum ∧
    SincPhot.measuredFluxErr ps
      = Real.sqrt ((ps.map (fun p => p.w * p.w * p.v)).sum : ℚ) := by
  have h := SincPhot.footprintSums_shift ps 0 0
  refine ⟨?_, ?_, ?_⟩
  · show (ps.foldl SincPhot.weightFluxStep (0, 0)).1 = _
    rw [h]; ring
  · show (ps.foldl SincPhot.weightFluxStep (0, 0)).2 = _
    rw [h]; ring
  · show Real.sqrt (((ps.foldl SincPhot.weightFluxStep (0, 0)).2 : ℚ) : ℝ) = _
    rw [h]; norm_num

/-- C3: CODE BUG. For `(radius1, radius2, taperwidth) = (2, 14/5, 1)` the gap
`4/5` is smaller than the sum `1` of the half taper widths, and half the
inner taper width (`1/2`) fits inside the gap, so per the claim the inner
taper width should be kept at `1`; but because line 168 compares
`_radius2 - _radius2` (identically zero) instead of `_radius2 - _radius1`
against `0.5*_taperwidth1`, the constructor takes the equal-split collapse
branch and sets both taper widths to `(radius2 - radius1)/2 = 2/5`. -/
theorem C3_collapse_branch_always_taken :
    SincPhot.mkAperture (2 : ℚ) (14 / 5) 1
      = some (⟨2, 14 / 5, 2 / 5, 2 / 5, 5 / 4, 5 / 4,
               9 / 5, 11 / 5, 13 / 5, 3⟩ : SincPhot.Aperture ℚ) ∧
    (1 : ℚ) / 2 ≤ 14 / 5 - 2 ∧
    (2 : ℚ) / 5 ≠ 1 := by
  refine ⟨?_, by norm_num, by norm_num⟩
  norm_num [SincPhot.mkAperture]

/-- C4: FALSIFIED as stated. For the valid construction
`(radius1, radius2, taperwidth) = (1/4, 10, 1)` with `radius1 > 0`, the inner
taper width is shrunk to `2·radius1 = 1/2` but the taper interval bounds keep
their initialiser values, so the transmission at the origin is
`0.5·(1 + cos(-3π/2)) = 1/2`, not `0`. -/
theorem C4_origin_not_zero :
    SincPhot.mkAperture (1 / 4 : ℝ) 10 1 = some SincPhot.apShrunk ∧
    (0 : ℝ) < 1 / 4 ∧
    SincPhot.apEval SincPhot.apShrunk 0 0 = 1 / 2 ∧
    (1 / 2 : ℝ) ≠ 0 := by
  refine ⟨?_, by norm_num, ?_, by norm_num⟩
  · norm_num [SincPhot.mkAperture, SincPhot.apShrunk]
  · have h0 : Real.sqrt (0 * 0 + 0 * 0) = 0 := by simp
    unfold SincPhot.apEval SincPhot.apEvalR
    rw [h0]
    rw [if_neg (by norm_num [SincPhot.apShrunk]),
        if_pos (by constructor <;> norm_num [SincPhot.apShrunk])]
    have hθ : (2 * Real.pi * SincPhot.apShrunk.k1)
        * (0 - SincPhot.apShrunk.taperHi1) = Real.pi / 2 - 2 * Real.pi := by
      show (2 * Real.pi * 1) * (0 - 3 / 4) = Real.pi / 2 - 2 * Real.pi
      ring
    rw [hθ, Real.cos_sub_two_pi, Real.cos_pi_div_two]
    norm_num

/-- C4 (amended): for every successful construction with `radius1 < radius2`
and positive taper width — the scope on which the constructor performs no
division by zero (`SincPhot.mkAperture_wavenumbers`), so the real-field
model agrees with the C++ double arithmetic — the transmission lies in
`[0, 1]` at every point, and it is 0 at the origin whenever the final inner
taper interval lies strictly above zero radius (`0 < taperLo1`).  The
restriction and the weakened origin condition are both forced: at
`radius1 = radius2 > 0` the C++ collapse branch zeroes both taper widths,
the wavenumber `1/(2·0)` is infinite and the transmission at
`xyrad = radius1` is NaN; and the counterexample shows the origin value is
`1/2` when the shrunk-inner-taper adjustment leaves
`taperLo1 = radius1 - taperwidth/2 < 0`. -/
theorem C4_amended_range_and_origin (r1 r2 tw : ℝ) (ap : SincPhot.Aperture ℝ)
    (htw : 0 < tw) (hlt : r1 < r2)
    (hmk : SincPhot.mkAperture r1 r2 tw = some ap) :
    (∀ x y, 0 ≤ SincPhot.apEval ap x y ∧ SincPhot.apEval ap x y ≤ 1) ∧
    (0 < ap.taperLo1 → SincPhot.apEval ap 0 0 = 0) := by
  have hcb : ∀ t : ℝ, 0 ≤ 0.5 * (1 + Real.cos t) ∧ 0.5 * (1 + Real.cos t) ≤ 1 := by
    intro t
    have h1 := Real.neg_one_le_cos t
    have h2 := Real.cos_le_one t
    constructor <;> nlinarith
  constructor
  · intro x y
    unfold SincPhot.apEval SincPhot.apEvalR
    split_ifs <;> first
      | exact ⟨le_refl 0, zero_le_one⟩
      | exact ⟨zero_le_one, le_refl 1⟩
      | exact hcb _
  · intro hlo
    have h0 : Real.sqrt ((0 : ℝ) * 0 + 0 * 0) = 0 := by simp
    unfold SincPhot.apEval SincPhot.apEvalR
    rw [h0, if_pos hlo]

/-- C4 amended witness: the aperture `(2, 5, 1)` (positive taper width,
`radius1 < radius2`, no degenerate adjustment, `taperLo1 = 3/2 > 0`)
satisfies the hypotheses and both conclusions. -/
theorem C4_amended_witness :
    (0 : ℝ) < 1 ∧ (2 : ℝ) < 5 ∧
    SincPhot.mkAperture (2 : ℝ) 5 1 = some SincPhot.apPlain ∧
    ((∀ x y, 0 ≤ SincPhot.apEval SincPhot.apPlain x y ∧
        SincPhot.apEval SincPhot.apPlain x y ≤ 1) ∧
     (0 < SincPhot.apPlain.taperLo1 →
        SincPhot.apEval SincPhot.apPlain 0 0 = 0)) := by
  have hmk : SincPhot.mkAperture (2 : ℝ) 5 1 = some SincPhot.apPlain := by
    norm_num [SincPhot.mkAperture, SincPhot.apPlain]
  exact ⟨by norm_num, by norm_num, hmk,
    C4_amended_range_and_origin 2 5 1 SincPhot.apPlain (by norm_num)
      (by norm_num) hmk⟩

/-- C5: for every integrator pair and every `(innerRadius, radius,
taperwidth)`, whenever the effective-radius Newton iteration completes, the
synthesized coefficient image is exactly the one produced by the variant with
the iteration removed: the corrected radius is discarded, and the
`CircularAperture` used for integration is built from the nominal radii. -/
theorem C5_newton_radius_unused (I1 : SincPhot.Integr1) (I2 : SincPhot.Integr2)
    (innerRadius radius taperwidth : ℝ) :
    SincPhot.calculateImage I1 I2 innerRadius radius taperwidth
      = (SincPhot.runNewton I1 radius taperwidth).bind
          (fun _ =>
            SincPhot.calculateImageNoSolver I2 innerRadius radius taperwidth) := by
  unfold SincPhot.calculateImage
  cases SincPhot.runNewton I1 radius taperwidth <;> rfl

/-- C6: FALSIFIED as stated. At `radius = 3`, `taperwidth = 5` the code's
window side is `int(2·(3+10))+1 = 27`, while the claimed formula
`2·(radius + taperWidth + buffer) + 1` with buffer 10 gives 37: the code's
window ignores the taper width entirely. -/
theorem C6_window_side_mismatch :
    SincPhot.coeffWidth 3 = 27 ∧
    SincPhot.claimWindowSide 3 5 10 = 37 ∧
    ((SincPhot.coeffWidth 3 : ℤ) : ℝ) ≠ SincPhot.claimWindowSide 3 5 10 ∧
    (SincPhot.coeffRows (fun _ _ _ _ _ _ => 0) SincPhot.apPlain 3 5).length = 27 := by
  have hw : SincPhot.coeffWidth 3 = 27 := by norm_num [SincPhot.coeffWidth]
  refine ⟨hw, by norm_num [SincPhot.claimWindowSide], ?_, ?_⟩
  · rw [hw]; norm_num [SincPhot.claimWindowSide]
  · simp only [SincPhot.coeffRows, List.length_map, List.length_range, hw]
    rfl

/-- C6 (amended): the window side is `⌊2·(radius + 10)⌋ + 1` — buffer 10 but
no taper-width term — and one coefficient is produced for every integer pixel
offset `(x0+i, y0+j)` inside that square window, each computed from the 2D
quadrature at absolute tolerance `1e-8` over the square of half-width
`radius + taperwidth` (minus the baseline volume, forced to zero at offset
distance at least half the window side). -/
theorem C6_amended_window (I2 : SincPhot.Integr2) (ap : SincPhot.Aperture ℝ)
    (radius taperwidth : ℝ) (i j : ℕ)
    (hi : i < (SincPhot.coeffWidth radius).toNat)
    (hj : j < (SincPhot.coeffWidth radius).toNat) :
    SincPhot.coeffWidth radius = ⌊2 * (radius + 10)⌋ + 1 ∧
    (SincPhot.coeffRows I2 ap radius taperwidth).length
      = (SincPhot.coeffWidth radius).toNat ∧
    ((SincPhot.coeffRows I2 ap radius taperwidth).getD j []).getD i 0
      = SincPhot.coeffEntry I2 ap radius taperwidth
          (SincPhot.coeffX0 radius + i) (SincPhot.coeffX0 radius + j) ∧
    SincPhot.coeffEntry I2 ap radius taperwidth
        (SincPhot.coeffX0 radius + i) (SincPhot.coeffX0 radius + j)
      = (if Real.sqrt (((SincPhot.coeffX0 radius + i : ℤ) : ℝ)
              * ((SincPhot.coeffX0 radius + i : ℤ) : ℝ)
            + ((SincPhot.coeffX0 radius + j : ℤ) : ℝ)
              * ((SincPhot.coeffX0 radius + j : ℤ) : ℝ))
            < ((Int.tdiv (SincPhot.coeffWidth radius) 2 : ℤ) : ℝ) then
          I2 (SincPhot.sincApertureF ap (SincPhot.coeffX0 radius + i)
                (SincPhot.coeffX0 radius + j))
              (-(radius + taperwidth)) (radius + taperwidth)
              (-(radius + taperwidth)) (radius + taperwidth) (1e-8)
            - ((radius + taperwidth) - -(radius + taperwidth))
              * ((radius + taperwidth) - -(radius + taperwidth))
        else 0) := by
  refine ⟨rfl, by simp only [SincPhot.coeffRows, List.length_map,
    List.length_range], ?_, rfl⟩
  have hrow : (SincPhot.coeffRows I2 ap radius taperwidth).getD j []
      = (List.range (SincPhot.coeffWidth radius).toNat).map
          (fun (i : ℕ) => SincPhot.coeffEntry I2 ap radius taperwidth
            (SincPhot.coeffX0 radius + (i : ℤ))
            (SincPhot.coeffX0 radius + (j : ℤ))) := by
    unfold SincPhot.coeffRows
    rw [List.getD_eq_getElem _ _
      (by simpa only [List.length_map, List.length_range] using hj)]
    rw [List.getElem_map, List.getElem_range]
  rw [hrow]
  rw [List.getD_eq_getElem _ _
    (by simpa only [List.length_map, List.length_range] using hi)]
  rw [List.getElem_map, List.getElem_range]

/-- C6 amended witness: instantiated with the zero integrator at
`radius = 3`, `taperwidth = 5`, offset index `(0, 0)` inside the 27-pixel
window. -/
theorem C6_amended_window_witness :
    0 < (SincPhot.coeffWidth 3).toNat ∧
    (SincPhot.coeffWidth 3 = ⌊2 * ((3 : ℝ) + 10)⌋ + 1 ∧
     (SincPhot.coeffRows (fun _ _ _ _ _ _ => 0) SincPhot.apPlain 3 5).length
       = (SincPhot.coeffWidth 3).toNat ∧
     ((SincPhot.coeffRows (fun _ _ _ _ _ _ => 0) SincPhot.apPlain 3 5).getD 0 []).getD 0 0
       = SincPhot.coeffEntry (fun _ _ _ _ _ _ => 0) SincPhot.apPlain 3 5
           (SincPhot.coeffX0 3 + 0) (SincPhot.coeffX0 3 + 0) ∧
     SincPhot.coeffEntry (fun _ _ _ _ _ _ => 0) SincPhot.apPlain 3 5
         (SincPhot.coeffX0 3 + 0) (SincPhot.coeffX0 3 + 0)
       = (if Real.sqrt (((SincPhot.coeffX0 3 + 0 : ℤ) : ℝ)
               * ((SincPhot.coeffX0 3 + 0 : ℤ) : ℝ)
             + ((SincPhot.coeffX0 3 + 0 : ℤ) : ℝ)
               * ((SincPhot.coeffX0 3 + 0 : ℤ) : ℝ))
             < ((Int.tdiv (SincPhot.coeffWidth 3) 2 : ℤ) : ℝ) then
           (fun (_ : ℝ → ℝ → ℝ) (_ _ _ _ _ : ℝ) => (0 : ℝ))
               (SincPhot.sincApertureF SincPhot.apPlain (SincPhot.coeffX0 3 + 0)
                 (SincPhot.coeffX0 3 + 0))
               (-((3 : ℝ) + 5)) ((3 : ℝ) + 5) (-((3 : ℝ) + 5)) ((3 : ℝ) + 5) (1e-8)
             - (((3 : ℝ) + 5) - -((3 : ℝ) + 5)) * (((3 : ℝ) + 5) - -((3 : ℝ) + 5))
         else 0)) := by
  have hw : SincPhot.coeffWidth 3 = 27 := by norm_num [SincPhot.coeffWidth]
  have h0 : 0 < (SincPhot.coeffWidth 3).toNat := by rw [hw]; decide
  exact ⟨h0, C6_amended_window (fun _ _ _ _ _ _ => 0) SincPhot.apPlain 3 5 0 0 h0 h0⟩

/-- C2: FALSIFIED on the code. A shifted 21×21 kernel image occupying
`x ∈ [-30, -10]` against a 100×100 data image at the origin has an empty
intersection, yet `doMeasure` does not return the failure (NaN) result: the
clip arithmetic produces a box of width `-9` and the sub-image construction
throws out of the function. -/
theorem C2_empty_intersection_throws :
    SincPhot.emptyIntersection ⟨-30, 0, 21, 21⟩ ⟨0, 0, 100, 100⟩ ∧
    SincPhot.doMeasureClip true ⟨-30, 0, 21, 21⟩ ⟨0, 0, 100, 100⟩
      = SincPhot.ClipOutcome.thrown ∧
    SincPhot.ClipOutcome.thrown ≠ SincPhot.ClipOutcome.nanResult := by
  refine ⟨by decide, ?_, by decide⟩
  exact SincPhot.doMeasureClip_empty_throws _ _ (by decide) (by decide) (by decide)

/-- C7: for any positive epsilon, two cache keys are treated as equal exactly
when they differ by less than epsilon (so radii farther apart than epsilon —
however slightly — are distinct keys), and a lookup whose `(innerRadius,
radius)` key is absent performs the full synthesis, inserts the result under
that key, and a subsequent lookup of the key finds exactly that result. -/
theorem C7_fuzzy_key_and_miss (eps : ℚ) (heps : 0 < eps) :
    (∀ x y : ℚ, SincPhot.fuzzyEqv eps x y = true ↔ |x - y| < eps) ∧
    (∀ k l : ℚ × ℚ, SincPhot.keyEqv eps k l = true ↔
       (|k.1 - l.1| < eps ∧ |k.2 - l.2| < eps)) ∧
    (∀ (κ : Type) (synth : ℚ → ℚ → ℚ → κ) (c : SincPhot.Cache κ) (ir r tw : ℚ),
       SincPhot.cacheFind eps c (ir, r) = none →
         SincPhot.getImageCached synth eps c ir r tw
           = (synth ir r tw, ((ir, r), synth ir r tw) :: c) ∧
         SincPhot.cacheFind eps (((ir, r), synth ir r tw) :: c) (ir, r)
           = some (synth ir r tw)) := by
  refine ⟨fun x y => SincPhot.fuzzyEqv_true_iff eps heps x y, ?_, ?_⟩
  · intro k l
    unfold SincPhot.keyEqv
    rw [Bool.and_eq_true, SincPhot.fuzzyEqv_true_iff eps heps,
        SincPhot.fuzzyEqv_true_iff eps heps]
  · intro κ synth c ir r tw hmiss
    constructor
    · unfold SincPhot.getImageCached
      rw [hmiss]
    · exact SincPhot.cacheFind_cons_self eps heps (ir, r) (synth ir r tw) c

/-- C7 witness: instantiated at the comparator's actual epsilon,
`std::numeric_limits<float>::epsilon() = 2⁻²³`. -/
theorem C7_fuzzy_key_and_miss_witness :
    (0 : ℚ) < SincPhot.machineEpsF ∧
    ((∀ x y : ℚ, SincPhot.fuzzyEqv SincPhot.machineEpsF x y = true ↔
        |x - y| < SincPhot.machineEpsF) ∧
     (∀ k l : ℚ × ℚ, SincPhot.keyEqv SincPhot.machineEpsF k l = true ↔
        (|k.1 - l.1| < SincPhot.machineEpsF ∧
         |k.2 - l.2| < SincPhot.machineEpsF)) ∧
     (∀ (κ : Type) (synth : ℚ → ℚ → ℚ → κ) (c : SincPhot.Cache κ)
        (ir r tw : ℚ),
        SincPhot.cacheFind SincPhot.machineEpsF c (ir, r) = none →
          SincPhot.getImageCached synth SincPhot.machineEpsF c ir r tw
            = (synth ir r tw, ((ir, r), synth ir r tw) :: c) ∧
          SincPhot.cacheFind SincPhot.machineEpsF
              (((ir, r), synth ir r tw) :: c) (ir, r)
            = some (synth ir r tw))) := by
  have h : (0 : ℚ) < SincPhot.machineEpsF := by decide
  exact ⟨h, C7_fuzzy_key_and_miss SincPhot.machineEpsF h⟩

/-- C10: the taper width is not part of the cache key: after a first
`getImage(r1, r2, tw)`, a second call with the same radii and any taper width
`tw2` returns the stored kernel and leaves the cache unchanged — and when the
first call was a miss, that kernel is the one synthesized with the first
request's taper width. -/
theorem C10_taperwidth_not_in_key (κ : Type) (synth : ℚ → ℚ → ℚ → κ)
    (eps : ℚ) (heps : 0 < eps) (c : SincPhot.Cache κ) (ir r tw tw2 : ℚ) :
    SincPhot.getImageCached synth eps
        (SincPhot.getImageCached synth eps c ir r tw).2 ir r tw2
      = ((SincPhot.getImageCached synth eps c ir r tw).1,
         (SincPhot.getImageCached synth eps c ir r tw).2) ∧
    (SincPhot.cacheFind eps c (ir, r) = none →
       (SincPhot.getImageCached synth eps
           (SincPhot.getImageCached synth eps c ir r tw).2 ir r tw2).1
         = synth ir r tw) := by
  cases h : SincPhot.cacheFind eps c (ir, r) with
  | some img =>
      have h1 : SincPhot.getImageCached synth eps c ir r tw = (img, c) := by
        unfold SincPhot.getImageCached
        rw [h]
      have h2 : SincPhot.getImageCached synth eps c ir r tw2 = (img, c) := by
        unfold SincPhot.getImageCached
        rw [h]
      rw [h1]
      exact ⟨by rw [h2], fun hnone => by simp [h] at hnone⟩
  | none =>
      have h1 : SincPhot.getImageCached synth eps c ir r tw
          = (synth ir r tw, ((ir, r), synth ir r tw) :: c) := by
        unfold SincPhot.getImageCached
        rw [h]
      have h2 : SincPhot.getImageCached synth eps
          (((ir, r), synth ir r tw) :: c) ir r tw2
          = (synth ir r tw, ((ir, r), synth ir r tw) :: c) := by
        unfold SincPhot.getImageCached
        rw [SincPhot.cacheFind_cons_self eps heps (ir, r) (synth ir r tw) c]
      rw [h1]
      exact ⟨by rw [h2], fun _ => by rw [h2]⟩

/-- C10 witness: a first request `(1, 2)` with taper width 3 on the empty
cache, then the same radii with taper width 4, at the comparator epsilon. -/
theorem C10_taperwidth_not_in_key_witness :
    (0 : ℚ) < SincPhot.machineEpsF ∧
    (SincPhot.getImageCached (fun x y z => (x, y, z)) SincPhot.machineEpsF
        (SincPhot.getImageCached (fun x y z => (x, y, z)) SincPhot.machineEpsF
          [] 1 2 3).2 1 2 4
      = ((SincPhot.getImageCached (fun x y z => (x, y, z)) SincPhot.machineEpsF
            [] 1 2 3).1,
         (SincPhot.getImageCached (fun x y z => (x, y, z)) SincPhot.machineEpsF
            [] 1 2 3).2) ∧
     (SincPhot.cacheFind SincPhot.machineEpsF
          ([] : SincPhot.Cache (ℚ × ℚ × ℚ)) (1, 2) = none →
        (SincPhot.getImageCached (fun x y z => (x, y, z)) SincPhot.machineEpsF
            (SincPhot.getImageCached (fun x y z => (x, y, z))
              SincPhot.machineEpsF [] 1 2 3).2 1 2 4).1
          = (fun x y z => (x, y, z)) 1 2 3)) := by
  have h : (0 : ℚ) < SincPhot.machineEpsF := by decide
  exact ⟨h, C10_taperwidth_not_in_key (ℚ × ℚ × ℚ) (fun x y z => (x, y, z))
    SincPhot.machineEpsF h [] 1 2 3 4⟩

/-- C9: when the caller's shape measurement is flagged invalid, `_apply`
returns with the failure flag set and a zero measured-profile count, with no
photometry call made and no flux or flux-error field written. -/
theorem C9_bad_shape_short_circuits (measure : ℝ → ℝ → ℝ × ℝ) (a fac : ℝ)
    (radii : List ℝ) (s0 : SincPhot.MeasState) :
    (SincPhot.ellApplyModel measure true a fac radii s0).flag = true ∧
    (SincPhot.ellApplyModel measure true a fac radii s0).nProfile = 0 ∧
    (SincPhot.ellApplyModel measure true a fac radii s0).fluxWrites
      = s0.fluxWrites ∧
    (SincPhot.ellApplyModel measure true a fac radii s0).errWrites
      = s0.errWrites ∧
    (SincPhot.ellApplyModel measure true a fac radii s0).calls = s0.calls :=
  ⟨rfl, rfl, rfl, rfl, rfl⟩

/-- C8: in a radial-profile measurement the ratio argument passed to the sinc
aperture-flux call is `0` at step 0 (`oradius` starts at `0`) and, at every
step `i+1`, the previous step's outer semi-major axis `a·(fac·radiusᵢ)`
divided by the current step's outer semi-major axis `a·(fac·radiusᵢ₊₁)`. -/
theorem C8_profile_ratio_args (measure : ℝ → ℝ → ℝ × ℝ) (a b : ℝ)
    (radii : List ℝ) (ha : 0 < a) (hb : 0 < b) (hr : ∀ r ∈ radii, 0 < r) :
    ((SincPhot.ellApplyModel measure false a (SincPhot.ellFac a b) radii
        SincPhot.emptyMeasState).calls).length = radii.length ∧
    (((SincPhot.ellApplyModel measure false a (SincPhot.ellFac a b) radii
        SincPhot.emptyMeasState).calls).map Prod.snd).getD 0 0 = 0 ∧
    (∀ i : ℕ, i + 1 < radii.length →
       (((SincPhot.ellApplyModel measure false a (SincPhot.ellFac a b) radii
           SincPhot.emptyMeasState).calls).map Prod.snd).getD (i + 1) 0
         = (a * (SincPhot.ellFac a b * radii.getD i 0))
             / (a * (SincPhot.ellFac a b * radii.getD (i + 1) 0))) := by
  have hcalls : (SincPhot.ellApplyModel measure false a (SincPhot.ellFac a b)
      radii SincPhot.emptyMeasState).calls
      = SincPhot.annulusCalls a (SincPhot.ellFac a b) 0 radii := by
    unfold SincPhot.ellApplyModel
    simp only [if_neg Bool.false_ne_true]
    rw [SincPhot.ellApplyAux_calls]
    simp [SincPhot.emptyMeasState]
  refine ⟨?_, ?_, ?_⟩
  · rw [hcalls, SincPhot.annulusCalls_length]
  · rw [hcalls]
    cases radii with
    | nil => simp [SincPhot.annulusCalls]
    | cons r rest => simp [SincPhot.annulusCalls]
  · intro i hi
    rw [hcalls]
    exact SincPhot.annulusCalls_snd_succ a (SincPhot.ellFac a b) radii 0 i hi

/-- C8 witness: a unit-circle shape and the documented radii `[3, 7, 12]`. -/
theorem C8_profile_ratio_args_witness :
    (0 : ℝ) < 1 ∧ (0 : ℝ) < 1 ∧ (∀ r ∈ ([3, 7, 12] : List ℝ), 0 < r) ∧
    (((SincPhot.ellApplyModel (fun x y => (x, y)) false 1 (SincPhot.ellFac 1 1)
        [3, 7, 12] SincPhot.emptyMeasState).calls).length
        = ([3, 7, 12] : List ℝ).length ∧
     (((SincPhot.ellApplyModel (fun x y => (x, y)) false 1 (SincPhot.ellFac 1 1)
        [3, 7, 12] SincPhot.emptyMeasState).calls).map Prod.snd).getD 0 0 = 0 ∧
     (∀ i : ℕ, i + 1 < ([3, 7, 12] : List ℝ).length →
        (((SincPhot.ellApplyModel (fun x y => (x, y)) false 1
            (SincPhot.ellFac 1 1) [3, 7, 12]
            SincPhot.emptyMeasState).calls).map Prod.snd).getD (i + 1) 0
          = (1 * (SincPhot.ellFac 1 1 * ([3, 7, 12] : List ℝ).getD i 0))
              / (1 * (SincPhot.ellFac 1 1
                  * ([3, 7, 12] : List ℝ).getD (i + 1) 0)))) := by
  have hr : ∀ r ∈ ([3, 7, 12] : List ℝ), (0 : ℝ) < r := by
    intro r hmem
    simp only [List.mem_cons, List.not_mem_nil, or_false] at hmem
    rcases hmem with rfl | rfl | rfl <;> norm_num
  exact ⟨by norm_num, by norm_num, hr,
    C8_profile_ratio_args (fun x y => (x, y)) 1 1 [3, 7, 12]
      (by norm_num) (by norm_num) hr⟩
